import Mathlib

/-!
Verification of the incremental coverage dataset and cross-cycle state
synchronization of the fuzzbench measurer.

Embedded source files:
* `experiment/measurer/detailed_coverage_data_utils.py`
  (`DetailedCoverageData` and
  `extract_segments_and_functions_from_summary_json`)
* `experiment/measurer/measure_worker.py` (`StateFile`)

Modelling conventions:
* A parsed JSON document is a `JsonValue` (numbers are modelled as
  integers; JSON literals `true`/`false`/`null` are not modelled, the
  coverage summaries in scope carry numbers, strings, arrays, objects).
* Python exceptions are modelled by the `PyError` kinds that the embedded
  operations can raise; a computation that can raise returns `Except`.
* A pandas `DataFrame` is modelled as the list of its rows in order;
  `DataFrame.append` is list append.
* Python `==`/`in` on the modelled values coincides with structural
  equality (`JsonValue.beq` below is proved equivalent to `=`).
-/

inductive JsonValue where
  | num (n : Int)
  | str (s : String)
  | arr (elems : List JsonValue)
  | obj (fields : List (String × JsonValue))

mutual

/-- Structural equality test on JSON values (Python `==`). -/
def JsonValue.beq : JsonValue → JsonValue → Bool
  | .num a, .num b => a == b
  | .str a, .str b => a == b
  | .arr xs, .arr ys => beqList xs ys
  | .obj fs, .obj gs => beqFields fs gs
  | _, _ => false

/-- Elementwise equality test on JSON arrays. -/
def beqList : List JsonValue → List JsonValue → Bool
  | [], [] => true
  | x :: xs, y :: ys => JsonValue.beq x y && beqList xs ys
  | _, _ => false

/-- Equality test on JSON object field lists. -/
def beqFields : List (String × JsonValue) → List (String × JsonValue) → Bool
  | [], [] => true
  | (k, v) :: fs, (k2, v2) :: gs => k == k2 && JsonValue.beq v v2 && beqFields fs gs
  | _, _ => false

end

mutual

def JsonValue.beq_iff : ∀ (a b : JsonValue), (JsonValue.beq a b = true) ↔ a = b
  | .num _, .num _ => by simp [JsonValue.beq]
  | .num _, .str _ => by simp [JsonValue.beq]
  | .num _, .arr _ => by simp [JsonValue.beq]
  | .num _, .obj _ => by simp [JsonValue.beq]
  | .str _, .num _ => by simp [JsonValue.beq]
  | .str _, .str _ => by simp [JsonValue.beq]
  | .str _, .arr _ => by simp [JsonValue.beq]
  | .str _, .obj _ => by simp [JsonValue.beq]
  | .arr _, .num _ => by simp [JsonValue.beq]
  | .arr _, .str _ => by simp [JsonValue.beq]
  | .arr xs, .arr ys => by simp [JsonValue.beq, beqList_iff xs ys]
  | .arr _, .obj _ => by simp [JsonValue.beq]
  | .obj _, .num _ => by simp [JsonValue.beq]
  | .obj _, .str _ => by simp [JsonValue.beq]
  | .obj _, .arr _ => by simp [JsonValue.beq]
  | .obj fs, .obj gs => by simp [JsonValue.beq, beqFields_iff fs gs]

def beqList_iff : ∀ (xs ys : List JsonValue), (beqList xs ys = true) ↔ xs = ys
  | [], [] => by simp [beqList]
  | [], _ :: _ => by simp [beqList]
  | _ :: _, [] => by simp [beqList]
  | x :: xs, y :: ys => by
    simp [beqList, JsonValue.beq_iff x y, beqList_iff xs ys]

def beqFields_iff :
    ∀ (fs gs : List (String × JsonValue)), (beqFields fs gs = true) ↔ fs = gs
  | [], [] => by simp [beqFields]
  | [], _ :: _ => by simp [beqFields]
  | _ :: _, [] => by simp [beqFields]
  | (_, v) :: fs, (_, v2) :: gs => by
    simp [beqFields, JsonValue.beq_iff v v2, beqFields_iff fs gs, and_assoc]

end

instance : DecidableEq JsonValue := fun a b => decidable_of_iff _ (JsonValue.beq_iff a b)

/-- The kinds of Python exceptions the embedded operations can raise.
`extract_segments_and_functions_from_summary_json` catches exactly
`ValueError`, `KeyError` and `IndexError`. -/
inductive PyError where
  | valueError
  | keyError
  | indexError
  | typeError
deriving DecidableEq

/-- Python subscript `v[k]` with a string key `k`:
an object (dict) looks the key up (missing key raises `KeyError`);
subscripting a list, a string or a number with a string raises
`TypeError`. -/
def subscriptStr : JsonValue → String → Except PyError JsonValue
  | .obj fields, k =>
    match fields.lookup k with
    | some v => .ok v
    | none => .error .keyError
  | .arr _, _ => .error .typeError
  | .str _, _ => .error .typeError
  | .num _, _ => .error .typeError

/-- Python subscript `v[i]` with a nonnegative integer literal `i`
(the source only subscripts with the literals `0`, `1`, `2`, so negative
indexing never occurs and is not modelled): a list yields its `i`-th
element (`IndexError` out of range), a string yields its `i`-th character
as a one-character string, a dict with string keys raises `KeyError`, a
number raises `TypeError`. -/
def subscriptIdx : JsonValue → Nat → Except PyError JsonValue
  | .arr xs, i =>
    match xs[i]? with
    | some v => .ok v
    | none => .error .indexError
  | .str s, i =>
    match s.data[i]? with
    | some c => .ok (.str (String.singleton c))
    | none => .error .indexError
  | .obj _, _ => .error .keyError
  | .num _, _ => .error .typeError

/-- Python iteration `for x in v`: a list yields its elements, a dict its
keys, a string its characters as one-character strings; iterating a
number raises `TypeError`. -/
def pyIter : JsonValue → Except PyError (List JsonValue)
  | .arr xs => .ok xs
  | .obj fields => .ok (fields.map fun kv => .str kv.1)
  | .str s => .ok (s.data.map fun c => .str (String.singleton c))
  | .num _ => .error .typeError

/-- Python `v != 0` (never raises): an integer is compared numerically;
a string, list or dict is always `!= 0`. -/
def pyNeZero : JsonValue → Bool
  | .num n => n != 0
  | .str _ => true
  | .arr _ => true
  | .obj _ => true

/-- One row of `DetailedCoverageData.segment_df`
(columns `benchmark, fuzzer, trial, time, file, line, column`).
The caller-supplied identifiers are typed; the values taken from the
JSON document (`file`, `line`, `column`) are arbitrary JSON values. -/
structure SegmentRow where
  benchmark : String
  fuzzer : String
  trial : Nat
  time : Nat
  file : JsonValue
  line : JsonValue
  column : JsonValue
deriving DecidableEq

/-- One row of `DetailedCoverageData.function_df`
(columns `benchmark, fuzzer, trial, time, function, hits`). -/
structure FunctionRow where
  benchmark : String
  fuzzer : String
  trial : Nat
  time : Nat
  function : JsonValue
  hits : JsonValue
deriving DecidableEq

/-- Model of `DetailedCoverageData`: the two data frames, each modelled as the
list of its rows in order. -/
structure DetailedCoverageData where
  segment_df : List SegmentRow
  function_df : List FunctionRow
deriving DecidableEq

/-- The state built by `DetailedCoverageData.__init__`: both data frames
empty. -/
def DetailedCoverageData.empty : DetailedCoverageData := ⟨[], []⟩

/-- Model of `DetailedCoverageData.add_function_entry`: unconditionally appends
the row to `function_df`. -/
def DetailedCoverageData.add_function_entry (d : DetailedCoverageData)
    (benchmark fuzzer : String) (trial_id : Nat) (function function_hits : JsonValue)
    (time : Nat) : DetailedCoverageData :=
  { d with
    function_df := d.function_df ++ [⟨benchmark, fuzzer, trial_id, time, function, function_hits⟩] }

/-- Model of `DetailedCoverageData.add_segment_entry`: appends the row to
`segment_df` only if `[line, column]` is not in `recoreded_segments`
(spelling from the source); otherwise the call does nothing. -/
def DetailedCoverageData.add_segment_entry (d : DetailedCoverageData)
    (benchmark fuzzer : String) (trial_id : Nat) (file_name line column : JsonValue)
    (time : Nat) (recoreded_segments : List (JsonValue × JsonValue)) : DetailedCoverageData :=
  if (line, column) ∈ recoreded_segments then d
  else
    { d with
      segment_df := d.segment_df ++ [⟨benchmark, fuzzer, trial_id, time, file_name, line, column⟩] }

/-- The dedup identity of a segment row: all columns except `time`
(pandas `columns.difference(['time'])`). -/
def segKey (r : SegmentRow) : String × String × Nat × JsonValue × JsonValue × JsonValue :=
  (r.benchmark, r.fuzzer, r.trial, r.file, r.line, r.column)

/-- The comparison used to sort `segment_df` by the `time` column. -/
def timeOrder (a b : SegmentRow) : Prop := a.time ≤ b.time

instance : DecidableRel timeOrder := fun a b => Nat.decLe a.time b.time

instance : IsTotal SegmentRow timeOrder := ⟨fun a b => Nat.le_total a.time b.time⟩

instance : IsTrans SegmentRow timeOrder := ⟨fun _ _ _ => Nat.le_trans⟩

/-- pandas `drop_duplicates(subset=key, keep='first')`: keeps the first
row of each `segKey` class in row order, dropping later ones.  `seen`
accumulates the keys already kept. -/
def dropDuplicates :
    List SegmentRow → List (String × String × Nat × JsonValue × JsonValue × JsonValue) →
    List SegmentRow
  | [], _ => []
  | r :: rs, seen =>
    if segKey r ∈ seen then dropDuplicates rs seen
    else r :: dropDuplicates rs (segKey r :: seen)

/-- Model of `DetailedCoverageData.remove_redundant_entries`: sorts `segment_df`
by `time` and drops duplicate rows over all columns except `time`,
keeping the first.  The pandas sort is modelled as an insertion sort by
`time`; pandas' default sort kind is an unstable quicksort, so the
source does not determine the relative order of rows tied on `time` —
order-sensitive statements are therefore made against
`remove_redundant_entries_with` below, which leaves the by-time sort
abstract.  The `try`/`except` around the two pandas calls is vacuous in
the model because the modelled operations are total. -/
def DetailedCoverageData.remove_redundant_entries (d : DetailedCoverageData) :
    DetailedCoverageData :=
  { d with segment_df := dropDuplicates (d.segment_df.insertionSort timeOrder) [] }

/-- Contract of pandas `sort_values(by=['time'])` with the kind left at
its default: the result is a permutation of the input, sorted by
`time`; the relative order of rows tied on `time` is not specified (the
default quicksort is unstable). -/
def IsByTimeSort (sort : List SegmentRow → List SegmentRow) : Prop :=
  ∀ l, List.Perm (sort l) l ∧ (sort l).Pairwise timeOrder

/-- The `remove_redundant_entries` pipeline with the pandas by-time
sort as an explicit collaborator parameter; the embedded
`DetailedCoverageData.remove_redundant_entries` is the instance at the
stable insertion sort. -/
def remove_redundant_entries_with (sort : List SegmentRow → List SegmentRow)
    (d : DetailedCoverageData) : DetailedCoverageData :=
  { d with segment_df := dropDuplicates (sort d.segment_df) [] }

/-- Swaps each adjacent pair of rows tied on `time` (keeps a list
sorted by `time` and permutes it); used to exhibit an unstable by-time
sort. -/
def swapAdjTies : List SegmentRow → List SegmentRow
  | a :: b :: rest =>
    if a.time = b.time then b :: a :: swapAdjTies rest
    else a :: swapAdjTies (b :: rest)
  | l => l

/-- An unstable by-time sort: sorts by `time`, then swaps adjacent
tied rows.  It satisfies the `sort_values(by=['time'])` contract
(`IsByTimeSort`, proved below) but reorders rows tied on `time`. -/
def unstableSort (l : List SegmentRow) : List SegmentRow :=
  swapAdjTies (l.insertionSort timeOrder)

/-- Modelled from the spec:
`coverage_utils.get_coverage_infomation` (not under `src/`) reads the
summary file and JSON-decodes it; the spec classes a decode failure of a
malformed document as a parse failure (`ValueError`, since
`json.JSONDecodeError` is a `ValueError`).  The input is modelled as the
already-decoded document, `none` standing for an undecodable file. -/
def getCoverageInformation : Option JsonValue → Except PyError JsonValue
  | none => .error .valueError
  | some v => .ok v

/-- The loop `for function_data in coverage_info['data'][0]['functions']`
of `extract_segments_and_functions_from_summary_json`.  An error carries
the dataset as accumulated so far (the Python dataset object is mutated
in place, so entries appended before the exception persist). -/
def functionsLoop (benchmark fuzzer : String) (trial_id time : Nat) :
    List JsonValue → DetailedCoverageData →
    Except (PyError × DetailedCoverageData) DetailedCoverageData
  | [], d => .ok d
  | function_data :: rest, d =>
    match subscriptStr function_data "name" with
    | .error e => .error (e, d)
    | .ok name =>
      match subscriptStr function_data "count" with
      | .error e => .error (e, d)
      | .ok count =>
        functionsLoop benchmark fuzzer trial_id time rest
          (d.add_function_entry benchmark fuzzer trial_id name count time)

/-- The inner loop `for segment in file['segments']` of
`extract_segments_and_functions_from_summary_json`: tests
`segment[2] != 0` and calls `add_segment_entry` with `file['filename']`,
`segment[0]`, `segment[1]` and the entry-time `recorded_segments` list
(argument evaluation in source order). -/
def segmentsLoop (benchmark fuzzer : String) (trial_id time : Nat)
    (recorded_segments : List (JsonValue × JsonValue)) (file : JsonValue) :
    List JsonValue → DetailedCoverageData →
    Except (PyError × DetailedCoverageData) DetailedCoverageData
  | [], d => .ok d
  | segment :: rest, d =>
    match subscriptIdx segment 2 with
    | .error e => .error (e, d)
    | .ok hit =>
      if pyNeZero hit then
        match subscriptStr file "filename" with
        | .error e => .error (e, d)
        | .ok file_name =>
          match subscriptIdx segment 0 with
          | .error e => .error (e, d)
          | .ok line =>
            match subscriptIdx segment 1 with
            | .error e => .error (e, d)
            | .ok column =>
              segmentsLoop benchmark fuzzer trial_id time recorded_segments file rest
                (d.add_segment_entry benchmark fuzzer trial_id file_name line column time
                  recorded_segments)
      else segmentsLoop benchmark fuzzer trial_id time recorded_segments file rest d

/-- The outer loop `for file in coverage_info['data'][0]['files']`. -/
def filesLoop (benchmark fuzzer : String) (trial_id time : Nat)
    (recorded_segments : List (JsonValue × JsonValue)) :
    List JsonValue → DetailedCoverageData →
    Except (PyError × DetailedCoverageData) DetailedCoverageData
  | [], d => .ok d
  | file :: rest, d =>
    match subscriptStr file "segments" with
    | .error e => .error (e, d)
    | .ok segs =>
      match pyIter segs with
      | .error e => .error (e, d)
      | .ok segments =>
        match segmentsLoop benchmark fuzzer trial_id time recorded_segments file segments d with
        | .error ed => .error ed
        | .ok dNext => filesLoop benchmark fuzzer trial_id time recorded_segments rest dNext

/-- Evaluation of `coverage_info['data'][0][field]` followed by the
iteration at the head of a `for` loop. -/
def summaryField (coverage_info : JsonValue) (field : String) :
    Except PyError (List JsonValue) := do
  let dataVal ← subscriptStr coverage_info "data"
  let first ← subscriptIdx dataVal 0
  let fieldVal ← subscriptStr first field
  pyIter fieldVal

/-- The body of the `try:` block of
`extract_segments_and_functions_from_summary_json` (source order:
decode, functions loop, then the files/segments loops).  An error
carries the dataset as accumulated at the point of the exception. -/
def runExtract (summary_json_file : Option JsonValue) (benchmark fuzzer : String)
    (trial_id time : Nat) (recorded_segments : List (JsonValue × JsonValue))
    (trial_specific_coverage_data : DetailedCoverageData) :
    Except (PyError × DetailedCoverageData) DetailedCoverageData :=
  match getCoverageInformation summary_json_file with
  | .error e => .error (e, trial_specific_coverage_data)
  | .ok coverage_info =>
    match summaryField coverage_info "functions" with
    | .error e => .error (e, trial_specific_coverage_data)
    | .ok fns =>
      match functionsLoop benchmark fuzzer trial_id time fns trial_specific_coverage_data with
      | .error ed => .error ed
      | .ok d1 =>
        match summaryField coverage_info "files" with
        | .error e => .error (e, d1)
        | .ok files => filesLoop benchmark fuzzer trial_id time recorded_segments files d1

/-- The `except (ValueError, KeyError, IndexError)` clause: those three
error kinds are caught (logged) and the accumulated dataset is returned;
any other exception (`TypeError`) propagates past the function, recorded
here as the second component. -/
def catchClause (x : Except (PyError × DetailedCoverageData) DetailedCoverageData) :
    DetailedCoverageData × Option PyError :=
  match x with
  | .ok d => (d, none)
  | .error (.valueError, d) => (d, none)
  | .error (.keyError, d) => (d, none)
  | .error (.indexError, d) => (d, none)
  | .error (.typeError, d) => (d, some .typeError)

/-- The dataset carried by either outcome (the Python dataset object,
mutated in place, as the caller sees it afterwards). -/
def resultData (x : Except (PyError × DetailedCoverageData) DetailedCoverageData) :
    DetailedCoverageData :=
  match x with
  | .ok d => d
  | .error (_, d) => d

/-- Model of `extract_segments_and_functions_from_summary_json`: snapshots the
`(line, column)` pairs of the current `segment_df` into
`recorded_segments` (before the `try:` block), runs the extraction, and
catches `ValueError`/`KeyError`/`IndexError`.  Returns the dataset the
caller sees and the exception escaping the function, if any. -/
def extract_segments_and_functions_from_summary_json
    (summary_json_file : Option JsonValue) (benchmark fuzzer : String)
    (trial_id time : Nat) (trial_specific_coverage_data : DetailedCoverageData) :
    DetailedCoverageData × Option PyError :=
  let recorded_segments :=
    trial_specific_coverage_data.segment_df.map fun r => (r.line, r.column)
  catchClause
    (runExtract summary_json_file benchmark fuzzer trial_id time recorded_segments
      trial_specific_coverage_data)

/-- The state carried between cycles: a JSON-serializable value (the
measurer stores the previously-seen segment identities as an array of
`[line, column]` pairs). -/
def CycleState := List (Int × Int)

instance : DecidableEq CycleState := fun a b => instDecidableEqList a b

/-- The external collaborators of `StateFile` (not under `src/`):
the blob store (`filestore_utils.cat` returns output and return code;
`filestore_utils.cp` copies a local file to a bucket path), the `json`
module (`json.loads` can raise `ValueError` on garbage, `json.dumps` is
total), and `exp_path.filestore`, which resolves an experiment-relative
path to its durable-storage address. -/
structure WorkerEnv where
  cat : String → Int × String
  jsonLoads : String → Except PyError CycleState
  jsonDumps : CycleState → String
  filestore : String → String

/-- Modelled from the spec:
`experiment_utils.get_cycle_filename` (not under `src/`) builds the
name stem of a per-cycle file; the spec's state-file path convention is
`state_dir / "<name>-<cycle>.json"`. -/
def get_cycle_filename (name : String) (cycle : Nat) : String :=
  name ++ "-" ++ toString cycle

/-- Model of `StateFile`: name, state directory, cycle number, and the cached
previous state (`None` until fetched). -/
structure StateFile where
  name : String
  state_dir : String
  cycle : Nat
  prev_state : Option CycleState

/-- Model of `StateFile.__init__`: the cache starts out empty. -/
def StateFile.mk_init (name state_dir : String) (cycle : Nat) : StateFile :=
  ⟨name, state_dir, cycle, none⟩

/-- Model of `StateFile._get_bucket_cycle_state_file_path`: joins the state
directory with `get_cycle_filename(name, cycle) + '.json'` and resolves
it through `exp_path.filestore`. -/
def StateFile.get_bucket_cycle_state_file_path (env : WorkerEnv) (sf : StateFile)
    (cycle : Nat) : String :=
  env.filestore (sf.state_dir ++ "/" ++ get_cycle_filename sf.name cycle ++ ".json")

/-- Model of `StateFile._get_previous_cycle_state`: returns `[]` when
`cycle == 1`; otherwise `cat`s the previous cycle's state file, returns
`[]` on nonzero return code, and otherwise `json.loads` the output
(which can raise).  The second component lists the bucket paths read
from storage, in order. -/
def StateFile.get_previous_cycle_state (env : WorkerEnv) (sf : StateFile) :
    Except PyError CycleState × List String :=
  if sf.cycle = 1 then (.ok [], [])
  else
    let path := sf.get_bucket_cycle_state_file_path env (sf.cycle - 1)
    let result := env.cat path
    if result.1 ≠ 0 then (.ok [], [path])
    else (env.jsonLoads result.2, [path])

/-- Model of `StateFile.get_previous`: returns the cached previous state if
present, otherwise fetches it via `_get_previous_cycle_state` and caches
it.  Returns the updated object, the value (or the exception raised by
`json.loads`, in which case the cache stays empty), and the storage
reads performed. -/
def StateFile.get_previous (env : WorkerEnv) (sf : StateFile) :
    Except PyError (StateFile × CycleState) × List String :=
  match sf.prev_state with
  | some s => (.ok (sf, s), [])
  | none =>
    match sf.get_previous_cycle_state env with
    | (.ok s, reads) => (.ok ({ sf with prev_state := some s }, s), reads)
    | (.error e, reads) => (.error e, reads)

/-- The file-system operations performed by `StateFile.set_current`, in
order: a `write` to the scratch temporary file, a `flush` of it, and a
`filestore_utils.cp` of the temporary file to a bucket path. -/
inductive FileOp where
  | writeTemp (s : String)
  | flushTemp
  | cpTempToDurable (dst : String)
deriving DecidableEq

/-- The visible state of the scratch file and of durable storage:
bytes written but not yet flushed, bytes flushed to the scratch file,
and the durable content at each bucket path. -/
structure FsState where
  buffered : String
  onDisk : String
  durable : String → Option String

/-- Effect of one file operation: a write buffers bytes, a flush moves
the buffered bytes to the scratch file, and `cp` publishes the flushed
scratch-file content at the destination path. -/
def stepOp (st : FsState) : FileOp → FsState
  | .writeTemp s => { st with buffered := st.buffered ++ s }
  | .flushTemp => { st with buffered := "", onDisk := st.onDisk ++ st.buffered }
  | .cpTempToDurable dst =>
    { st with durable := fun p => if p = dst then some st.onDisk else st.durable p }

/-- Running a sequence of file operations. -/
def runOps (st : FsState) : List FileOp → FsState
  | [] => st
  | op :: ops => runOps (stepOp st op) ops

/-- Model of `StateFile.set_current`: writes `json.dumps(state)` to a fresh
temporary file, flushes it, and copies it to this cycle's bucket state
file path. -/
def StateFile.set_current (env : WorkerEnv) (sf : StateFile) (state : CycleState) :
    List FileOp :=
  [.writeTemp (env.jsonDumps state), .flushTemp,
   .cpTempToDurable (sf.get_bucket_cycle_state_file_path env sf.cycle)]

/-- The value of an `Except` that is known to be `.ok` (defaulted
otherwise); used by the validity predicates and extractors below. -/
def getOkD : Except PyError JsonValue → JsonValue
  | .ok v => v
  | .error _ => .str ""

/-- Whether an `Except` is `.ok`. -/
def isOkB : Except PyError JsonValue → Bool
  | .ok _ => true
  | .error _ => false

/-- A well-formed segment tuple per the coverage-summary format:
an array whose first three elements (line, column, hit count) are
numbers. -/
def validSegment : JsonValue → Bool
  | .arr (.num _ :: .num _ :: .num _ :: _) => true
  | _ => false

/-- A well-formed element of the summary's `functions` list: it has
`name` and `count` fields. -/
def validFunction (fn : JsonValue) : Bool :=
  isOkB (subscriptStr fn "name") && isOkB (subscriptStr fn "count")

/-- A well-formed element of the summary's `files` list: it has a
`filename` field and a `segments` array of well-formed segments. -/
def validFile (f : JsonValue) : Bool :=
  isOkB (subscriptStr f "filename") &&
    (match subscriptStr f "segments" with
     | .ok (.arr segs) => segs.all validSegment
     | _ => false)

/-- A valid coverage summary per the documented shape
`{data: [{functions: [...], files: [...]}]}`: decodable, with
well-formed `functions` and `files` lists reachable at
`data[0]`. -/
def validSummary : Option JsonValue → Bool
  | none => false
  | some v =>
    match subscriptStr v "data" with
    | .error _ => false
    | .ok dv =>
      match subscriptIdx dv 0 with
      | .error _ => false
      | .ok d0 =>
        (match subscriptStr d0 "functions" with
         | .ok (.arr fns) => fns.all validFunction
         | _ => false) &&
          (match subscriptStr d0 "files" with
           | .ok (.arr files) => files.all validFile
           | _ => false)

/-- The `name` field of a function entry. -/
def fnName (fn : JsonValue) : JsonValue := getOkD (subscriptStr fn "name")

/-- The `count` field of a function entry. -/
def fnCount (fn : JsonValue) : JsonValue := getOkD (subscriptStr fn "count")

/-- The `filename` field of a file entry. -/
def fileNameOf (f : JsonValue) : JsonValue := getOkD (subscriptStr f "filename")

/-- The `segments` array of a file entry. -/
def fileSegmentsList (f : JsonValue) : List JsonValue :=
  match subscriptStr f "segments" with
  | .ok (.arr segs) => segs
  | _ => []

/-- A segment tuple's line (element 0). -/
def segLine (seg : JsonValue) : JsonValue := getOkD (subscriptIdx seg 0)

/-- A segment tuple's column (element 1). -/
def segCol (seg : JsonValue) : JsonValue := getOkD (subscriptIdx seg 1)

/-- A segment tuple's hit count (element 2). -/
def segHit (seg : JsonValue) : JsonValue := getOkD (subscriptIdx seg 2)

/-- Whether a segment tuple's hit count is nonzero (Python `!= 0`). -/
def segHitNonzero (seg : JsonValue) : Bool := pyNeZero (segHit seg)

/-- The summary's `functions` list (empty if not reachable). -/
def summaryFunctionsList (s : Option JsonValue) : List JsonValue :=
  match s with
  | none => []
  | some v =>
    match subscriptStr v "data" with
    | .error _ => []
    | .ok dv =>
      match subscriptIdx dv 0 with
      | .error _ => []
      | .ok d0 =>
        match subscriptStr d0 "functions" with
        | .ok (.arr fns) => fns
        | _ => []

/-- The summary's `files` list (empty if not reachable). -/
def summaryFilesList (s : Option JsonValue) : List JsonValue :=
  match s with
  | none => []
  | some v =>
    match subscriptStr v "data" with
    | .error _ => []
    | .ok dv =>
      match subscriptIdx dv 0 with
      | .error _ => []
      | .ok d0 =>
        match subscriptStr d0 "files" with
        | .ok (.arr files) => files
        | _ => []

/-- The number of segment tuples across all files of the summary whose
third element (hit count) is nonzero. -/
def nonzeroSegmentCount (s : Option JsonValue) : Nat :=
  ((summaryFilesList s).map fun f => ((fileSegmentsList f).filter segHitNonzero).length).sum

/-- The segment row the parser is specified to produce for one segment
tuple of one file. -/
def mkSegmentRow (benchmark fuzzer : String) (trial_id time : Nat) (f seg : JsonValue) :
    SegmentRow :=
  ⟨benchmark, fuzzer, trial_id, time, fileNameOf f, segLine seg, segCol seg⟩

/-- The function row the parser is specified to produce for one element
of the summary's `functions` list. -/
def mkFunctionRow (benchmark fuzzer : String) (trial_id time : Nat) (fn : JsonValue) :
    FunctionRow :=
  ⟨benchmark, fuzzer, trial_id, time, fnName fn, fnCount fn⟩

/-- The segment rows a fresh parse of a valid summary is specified to
produce: one row per nonzero-hit segment of each file, in order. -/
def segmentRowsOfSummary (benchmark fuzzer : String) (trial_id time : Nat)
    (s : Option JsonValue) : List SegmentRow :=
  ((summaryFilesList s).map fun f =>
    ((fileSegmentsList f).filter segHitNonzero).map (mkSegmentRow benchmark fuzzer trial_id time f)).flatten

/-- A summary whose two files both contain a hit segment at line 5,
column 1 (used to exercise within-call deduplication). -/
def dupSegSummary : JsonValue :=
  .obj [("data", .arr [.obj [
    ("functions", .arr []),
    ("files", .arr [
      .obj [("filename", .str "a.c"),
            ("segments", .arr [.arr [.num 5, .num 1, .num 1]])],
      .obj [("filename", .str "b.c"),
            ("segments", .arr [.arr [.num 5, .num 1, .num 3]])]])]])]

/-- A summary whose `data` field is a number, so that `data[0]` raises
`TypeError` (a wrong-typed, malformed document). -/
def badTypeSummary : JsonValue := .obj [("data", .num 5)]

/-- The concrete scenario of the spec: three functions (`main`: 10,
`_Z3fooIfEvT_`: 2, `bar`: 0) and one file with segment tuples
`[[5,1,1],[5,2,0],[6,1,3]]`. -/
def specScenarioSummary : JsonValue :=
  .obj [("data", .arr [.obj [
    ("functions", .arr [
      .obj [("name", .str "main"), ("count", .num 10)],
      .obj [("name", .str "_Z3fooIfEvT_"), ("count", .num 2)],
      .obj [("name", .str "bar"), ("count", .num 0)]]),
    ("files", .arr [
      .obj [("filename", .str "/home/test/fuzz_no_fuzzer.cc"),
            ("segments", .arr [
              .arr [.num 5, .num 1, .num 1],
              .arr [.num 5, .num 2, .num 0],
              .arr [.num 6, .num 1, .num 3]])]])]])]

/-- A concrete collaborator environment whose `cat` always fails. -/
def sampleEnv : WorkerEnv :=
  ⟨fun _ => (1, ""), fun _ => .ok [], fun _ => "[]", fun p => p⟩

/-- A concrete file-system state with a fresh scratch file. -/
def sampleFsState : FsState := ⟨"", "", fun _ => none⟩

/-- Two concrete segment rows agreeing on every column but `time`. -/
def sampleRowEarly : SegmentRow := ⟨"b1", "f1", 2, 800, .str "a.c", .num 5, .num 1⟩

/-- See `sampleRowEarly`. -/
def sampleRowLate : SegmentRow := ⟨"b1", "f1", 2, 900, .str "a.c", .num 5, .num 1⟩

/-- A concrete dataset holding the late row before the early one. -/
def sampleDataset : DetailedCoverageData := ⟨[sampleRowLate, sampleRowEarly], []⟩

/-- A concrete segment row differing from `sampleRowLate` only in
`line`, with the same `time`. -/
def sampleRowLine6 : SegmentRow := ⟨"b1", "f1", 2, 900, .str "a.c", .num 6, .num 1⟩

/-- A concrete dataset with two rows of distinct dedup keys tied on
`time`. -/
def tieDataset : DetailedCoverageData := ⟨[sampleRowLate, sampleRowLine6], []⟩

theorem dropDuplicates_sublist (xs : List SegmentRow) :
    ∀ seen, List.Sublist (dropDuplicates xs seen) xs := by
  induction xs with
  | nil => intro seen; exact List.Sublist.refl []
  | cons x rs ih =>
    intro seen
    rw [dropDuplicates]
    by_cases hx : segKey x ∈ seen
    · rw [if_pos hx]; exact (ih seen).cons x
    · rw [if_neg hx]; exact (ih (segKey x :: seen)).cons₂ x

theorem dropDuplicates_key_not_seen (xs : List SegmentRow) :
    ∀ seen r, r ∈ dropDuplicates xs seen → segKey r ∉ seen := by
  induction xs with
  | nil => intro seen r h; simp [dropDuplicates] at h
  | cons x rs ih =>
    intro seen r h
    rw [dropDuplicates] at h
    by_cases hx : segKey x ∈ seen
    · rw [if_pos hx] at h
      exact ih seen r h
    · rw [if_neg hx] at h
      rcases List.mem_cons.mp h with rfl | h2
      · exact hx
      · intro hs
        exact ih (segKey x :: seen) r h2 (List.mem_cons_of_mem _ hs)

theorem dropDuplicates_min (xs : List SegmentRow) :
    ∀ seen r, xs.Pairwise timeOrder → r ∈ dropDuplicates xs seen →
      ∀ s ∈ xs, segKey s = segKey r → r.time ≤ s.time := by
  induction xs with
  | nil => intro seen r _ h; simp [dropDuplicates] at h
  | cons x rs ih =>
    intro seen r hp h s hs hk
    rw [dropDuplicates] at h
    rcases List.pairwise_cons.mp hp with ⟨hx1, hp2⟩
    by_cases hx : segKey x ∈ seen
    · rw [if_pos hx] at h
      rcases List.mem_cons.mp hs with rfl | hs2
      · exact absurd (hk ▸ hx) (dropDuplicates_key_not_seen rs seen r h)
      · exact ih seen r hp2 h s hs2 hk
    · rw [if_neg hx] at h
      rcases List.mem_cons.mp h with rfl | h2
      · rcases List.mem_cons.mp hs with rfl | hs2
        · exact Nat.le_refl _
        · exact hx1 s hs2
      · rcases List.mem_cons.mp hs with rfl | hs2
        · exact absurd (List.mem_cons.mpr (Or.inl hk.symm))
            (dropDuplicates_key_not_seen rs (segKey s :: seen) r h2)
        · exact ih (segKey x :: seen) r hp2 h2 s hs2 hk

theorem dropDuplicates_keys_nodup (xs : List SegmentRow) :
    ∀ seen, ((dropDuplicates xs seen).map segKey).Nodup := by
  induction xs with
  | nil => intro seen; simp [dropDuplicates]
  | cons x rs ih =>
    intro seen
    rw [dropDuplicates]
    by_cases hx : segKey x ∈ seen
    · rw [if_pos hx]; exact ih seen
    · rw [if_neg hx]
      simp only [List.map_cons, List.nodup_cons]
      refine ⟨?_, ih (segKey x :: seen)⟩
      intro hmem
      rcases List.mem_map.mp hmem with ⟨r, hr, hkey⟩
      exact dropDuplicates_key_not_seen rs (segKey x :: seen) r hr
        (List.mem_cons.mpr (Or.inl hkey))

theorem dropDuplicates_keys_complete (xs : List SegmentRow) :
    ∀ seen k, k ∈ xs.map segKey → k ∈ seen ∨ k ∈ (dropDuplicates xs seen).map segKey := by
  induction xs with
  | nil => intro seen k h; simp at h
  | cons x rs ih =>
    intro seen k h
    rw [dropDuplicates]
    rcases List.mem_cons.mp (by simpa only [List.map_cons] using h) with rfl | h2
    · by_cases hx : segKey x ∈ seen
      · rw [if_pos hx]; exact Or.inl hx
      · rw [if_neg hx]; right; simp
    · by_cases hx : segKey x ∈ seen
      · rw [if_pos hx]; exact ih seen k h2
      · rw [if_neg hx]
        rcases ih (segKey x :: seen) k h2 with hin | hin
        · rcases List.mem_cons.mp hin with rfl | hin2
          · right; simp
          · exact Or.inl hin2
        · right
          simp only [List.map_cons, List.mem_cons]
          exact Or.inr hin

theorem dropDuplicates_eq_self (xs : List SegmentRow) :
    ∀ seen, (xs.map segKey).Nodup → (∀ k ∈ xs.map segKey, k ∉ seen) →
      dropDuplicates xs seen = xs := by
  induction xs with
  | nil => intro seen _ _; rfl
  | cons x rs ih =>
    intro seen hnd hdisj
    rw [dropDuplicates]
    have hx : segKey x ∉ seen := hdisj _ (by simp)
    rw [if_neg hx]
    have hnd2 := List.nodup_cons.mp (by simpa only [List.map_cons] using hnd)
    congr 1
    apply ih
    · exact hnd2.2
    · intro k hk hmem
      rcases List.mem_cons.mp hmem with rfl | hmem2
      · exact hnd2.1 hk
      · exact hdisj k (by simp [hk]) hmem2

theorem dropDuplicates_pairwise (xs : List SegmentRow) (seen : List _)
    (h : xs.Pairwise timeOrder) : (dropDuplicates xs seen).Pairwise timeOrder :=
  List.Pairwise.sublist (dropDuplicates_sublist xs seen) h

theorem segKey_time_ext (r s : SegmentRow) (hk : segKey s = segKey r)
    (ht : s.time = r.time) : s = r := by
  cases r; cases s
  simp only [segKey, Prod.mk.injEq] at hk
  obtain ⟨h1, h2, h3, h4, h5, h6⟩ := hk
  simp_all

/-- C4: `add_segment_entry` appends a row to the segment table if and
only if the pair `(line, column)` is not present in the caller-supplied
already-seen collection; when the pair is present, the call leaves the
whole dataset unchanged (the model is a total function: there is no
logging, error or exception channel in this operation). -/
theorem claim_C4 (d : DetailedCoverageData) (benchmark fuzzer : String) (trial_id : Nat)
    (file_name line column : JsonValue) (time : Nat)
    (already_seen : List (JsonValue × JsonValue)) :
    ((line, column) ∈ already_seen →
      d.add_segment_entry benchmark fuzzer trial_id file_name line column time already_seen
        = d)
    ∧ ((line, column) ∉ already_seen →
      (d.add_segment_entry benchmark fuzzer trial_id file_name line column time
          already_seen).segment_df
        = d.segment_df ++ [⟨benchmark, fuzzer, trial_id, time, file_name, line, column⟩]) := by
  constructor <;> intro h <;>
    simp [DetailedCoverageData.add_segment_entry, h]

/-- Witness for C4 at concrete inputs: a seen pair leaves the dataset
unchanged; an unseen pair appends exactly one row. -/
theorem claim_C4_witness :
    (DetailedCoverageData.empty.add_segment_entry "b1" "f1" 2 (.str "a.c") (.num 5) (.num 1)
        900 [(.num 5, .num 1)]
      = DetailedCoverageData.empty)
    ∧ (DetailedCoverageData.empty.add_segment_entry "b1" "f1" 2 (.str "a.c") (.num 5) (.num 1)
        900 []).segment_df
      = [⟨"b1", "f1", 2, 900, .str "a.c", .num 5, .num 1⟩] :=
  ⟨(claim_C4 DetailedCoverageData.empty "b1" "f1" 2 (.str "a.c") (.num 5) (.num 1) 900
      [(.num 5, .num 1)]).1 (by decide),
   by
    have h := (claim_C4 DetailedCoverageData.empty "b1" "f1" 2 (.str "a.c") (.num 5) (.num 1)
      900 []).2 (by decide)
    simpa [DetailedCoverageData.empty] using h⟩

/-- C5: `remove_redundant_entries` keeps, for each class of rows
agreeing on every column but `time`, exactly one row: a row of the
input, with the minimal `time` of its class (one row per class: the key
sets coincide and the result's keys have no duplicates).  Rows tied on
`time` within a class are identical in every column, so keeping the
earliest-inserted one is exactly what any choice yields, and the result
is the value of a function of the input table; the resulting table is
sorted by `time` ascending. -/
theorem claim_C5 (d : DetailedCoverageData) :
    (∀ r ∈ d.remove_redundant_entries.segment_df, r ∈ d.segment_df)
    ∧ (∀ r ∈ d.remove_redundant_entries.segment_df, ∀ s ∈ d.segment_df,
        segKey s = segKey r → r.time ≤ s.time)
    ∧ (∀ k, k ∈ d.segment_df.map segKey
        ↔ k ∈ d.remove_redundant_entries.segment_df.map segKey)
    ∧ (d.remove_redundant_entries.segment_df.map segKey).Nodup
    ∧ (∀ r ∈ d.remove_redundant_entries.segment_df, ∀ s ∈ d.segment_df,
        segKey s = segKey r → s.time = r.time → s = r)
    ∧ d.remove_redundant_entries.segment_df.Pairwise timeOrder := by
  have hres : d.remove_redundant_entries.segment_df
      = dropDuplicates (d.segment_df.insertionSort timeOrder) [] := rfl
  have hperm : List.Perm (d.segment_df.insertionSort timeOrder) d.segment_df :=
    List.perm_insertionSort timeOrder d.segment_df
  have hsort : (d.segment_df.insertionSort timeOrder).Pairwise timeOrder :=
    List.sorted_insertionSort timeOrder d.segment_df
  refine ⟨?_, ?_, ?_, ?_, ?_, ?_⟩
  · intro r hr
    rw [hres] at hr
    exact hperm.subset ((dropDuplicates_sublist _ _).subset hr)
  · intro r hr s hs hk
    rw [hres] at hr
    exact dropDuplicates_min _ [] r hsort hr s (hperm.symm.subset hs) hk
  · intro k
    rw [hres]
    constructor
    · intro hk
      have hk2 : k ∈ (d.segment_df.insertionSort timeOrder).map segKey :=
        ((hperm.map segKey).symm.subset) hk
      rcases dropDuplicates_keys_complete _ [] k hk2 with h | h
      · simp at h
      · exact h
    · intro hk
      exact (hperm.map segKey).subset
        (((dropDuplicates_sublist _ _).map segKey).subset hk)
  · rw [hres]
    exact dropDuplicates_keys_nodup _ []
  · intro r _ s _ hk ht
    exact segKey_time_ext r s hk ht
  · rw [hres]
    exact dropDuplicates_pairwise _ _ hsort

/-- Witness for C5 at a concrete dataset: of two rows sharing every
column but `time` (times 900 and 800, inserted in that order), the
result retains the 800 row, its time is minimal, and the key occurs
exactly once. -/
theorem claim_C5_witness :
    sampleRowEarly ∈ sampleDataset.remove_redundant_entries.segment_df
    ∧ sampleRowEarly.time ≤ sampleRowLate.time
    ∧ (sampleDataset.remove_redundant_entries.segment_df.map segKey).Nodup :=
  ⟨by decide,
   (claim_C5 sampleDataset).2.1 sampleRowEarly (by decide) sampleRowLate (by decide) (by decide),
   (claim_C5 sampleDataset).2.2.2.1⟩

theorem swapAdjTies_perm : ∀ l, List.Perm (swapAdjTies l) l
  | [] => List.Perm.refl _
  | [a] => List.Perm.refl _
  | a :: b :: rest => by
    rw [swapAdjTies]
    split
    · exact (((swapAdjTies_perm rest).cons a).cons b).trans (List.Perm.swap a b rest)
    · exact (swapAdjTies_perm (b :: rest)).cons a

theorem swapAdjTies_pairwise : ∀ l, l.Pairwise timeOrder → (swapAdjTies l).Pairwise timeOrder
  | [], _ => by simp [swapAdjTies]
  | [a], _ => by simp [swapAdjTies]
  | a :: b :: rest, h => by
    rw [swapAdjTies]
    rcases List.pairwise_cons.mp h with ⟨ha, h2⟩
    rcases List.pairwise_cons.mp h2 with ⟨hb, h3⟩
    split
    · next hteq =>
      refine List.pairwise_cons.mpr ⟨?_,
        List.pairwise_cons.mpr ⟨?_, swapAdjTies_pairwise rest h3⟩⟩
      · intro x hx
        rcases List.mem_cons.mp hx with rfl | hx2
        · exact Nat.le_of_eq hteq.symm
        · exact hb x ((swapAdjTies_perm rest).subset hx2)
      · intro x hx
        exact ha x (List.mem_cons_of_mem b ((swapAdjTies_perm rest).subset hx))
    · next hneq =>
      refine List.pairwise_cons.mpr ⟨?_, swapAdjTies_pairwise (b :: rest) h2⟩
      intro x hx
      exact ha x ((swapAdjTies_perm (b :: rest)).subset hx)

theorem unstableSort_isByTimeSort : IsByTimeSort unstableSort := by
  intro l
  constructor
  · exact (swapAdjTies_perm _).trans (List.perm_insertionSort timeOrder l)
  · exact swapAdjTies_pairwise _ (List.sorted_insertionSort timeOrder l)

theorem sorted_perm_eq_of_time_inj :
    ∀ (l1 l2 : List SegmentRow), List.Perm l1 l2 → l1.Pairwise timeOrder →
      l2.Pairwise timeOrder → (∀ a ∈ l1, ∀ b ∈ l1, a.time = b.time → a = b) →
      l1 = l2 := by
  intro l1
  induction l1 with
  | nil =>
    intro l2 hp _ _ _
    exact (hp.symm.eq_nil).symm
  | cons a t1 ih =>
    intro l2 hp hs1 hs2 hU
    cases l2 with
    | nil => exact absurd hp.eq_nil (by simp)
    | cons b t2 =>
      have hab : a = b := by
        rcases List.mem_cons.mp (hp.subset (List.mem_cons_self a t1)) with h | hat2
        · exact h
        · rcases List.mem_cons.mp (hp.symm.subset (List.mem_cons_self b t2)) with h | hbt1
          · exact h.symm
          · have h1 : a.time ≤ b.time := (List.pairwise_cons.mp hs1).1 b hbt1
            have h2 : b.time ≤ a.time := (List.pairwise_cons.mp hs2).1 a hat2
            exact hU a (List.mem_cons_self a t1) b (List.mem_cons_of_mem a hbt1)
              (Nat.le_antisymm h1 h2)
      subst hab
      rw [ih t2 hp.cons_inv (List.pairwise_cons.mp hs1).2 (List.pairwise_cons.mp hs2).2
        (fun x hx y hy hxy =>
          hU x (List.mem_cons_of_mem a hx) y (List.mem_cons_of_mem a hy) hxy)]

/-- C6 counterexample: exact-equality idempotence fails for the
program's operation under a sort meeting the `sort_values(by=['time'])`
contract: `unstableSort` is a by-time sort, yet on a table with two
rows of distinct dedup keys tied on `time`, applying the
redundancy-removal pipeline twice permutes the tied rows and yields a
table different from applying it once.  The source leaves the tie order
to pandas' default unstable quicksort, so the exact row order of the
result — observable in the exported CSV — is not guaranteed to be
idempotent. -/
theorem claim_C6_counterexample :
    IsByTimeSort unstableSort
    ∧ remove_redundant_entries_with unstableSort
        (remove_redundant_entries_with unstableSort tieDataset)
      ≠ remove_redundant_entries_with unstableSort tieDataset :=
  ⟨unstableSort_isByTimeSort, by decide⟩

/-- C6 (amended): `remove_redundant_entries` is idempotent up to the
unstable sort's permutation of rows tied on `time`: for every sort
satisfying the `sort_values(by=['time'])` contract, the second
application leaves `function_df` unchanged and yields a segment table
that is a permutation of the first application's table, itself sorted
by `time`; and it equals the first table exactly whenever no two
distinct rows of the first result share a `time`.  The embedded
operation is the instance of this pipeline at the stable insertion
sort. -/
theorem claim_C6 (sort : List SegmentRow → List SegmentRow) (hsort : IsByTimeSort sort)
    (d : DetailedCoverageData) :
    remove_redundant_entries_with (fun l => l.insertionSort timeOrder) d
      = d.remove_redundant_entries
    ∧ (remove_redundant_entries_with sort (remove_redundant_entries_with sort d)).function_df
      = (remove_redundant_entries_with sort d).function_df
    ∧ List.Perm
        (remove_redundant_entries_with sort
          (remove_redundant_entries_with sort d)).segment_df
        (remove_redundant_entries_with sort d).segment_df
    ∧ (remove_redundant_entries_with sort
        (remove_redundant_entries_with sort d)).segment_df.Pairwise timeOrder
    ∧ ((∀ r1 ∈ (remove_redundant_entries_with sort d).segment_df,
        ∀ r2 ∈ (remove_redundant_entries_with sort d).segment_df,
          r1.time = r2.time → r1 = r2) →
        remove_redundant_entries_with sort (remove_redundant_entries_with sort d)
          = remove_redundant_entries_with sort d) := by
  have hl1 : (remove_redundant_entries_with sort d).segment_df
      = dropDuplicates (sort d.segment_df) [] := rfl
  have hnd : ((dropDuplicates (sort d.segment_df) []).map segKey).Nodup :=
    dropDuplicates_keys_nodup _ []
  have hperm2 : List.Perm (sort (dropDuplicates (sort d.segment_df) []))
      (dropDuplicates (sort d.segment_df) []) :=
    (hsort (dropDuplicates (sort d.segment_df) [])).1
  have hnd2 : ((sort (dropDuplicates (sort d.segment_df) [])).map segKey).Nodup :=
    ((hperm2.map segKey).nodup_iff).mpr hnd
  have hres2 : (remove_redundant_entries_with sort
      (remove_redundant_entries_with sort d)).segment_df
      = sort (dropDuplicates (sort d.segment_df) []) :=
    dropDuplicates_eq_self _ [] hnd2 (by intro k _ hk; simp at hk)
  refine ⟨rfl, rfl, ?_, ?_, ?_⟩
  · rw [hres2, hl1]
    exact hperm2
  · rw [hres2]
    exact (hsort (dropDuplicates (sort d.segment_df) [])).2
  · intro hU
    have hs1 : (dropDuplicates (sort d.segment_df) []).Pairwise timeOrder :=
      dropDuplicates_pairwise _ _ (hsort d.segment_df).2
    have heq : sort (dropDuplicates (sort d.segment_df) [])
        = dropDuplicates (sort d.segment_df) [] :=
      sorted_perm_eq_of_time_inj _ _ hperm2
        (hsort (dropDuplicates (sort d.segment_df) [])).2 hs1
        (fun a ha b hb hab =>
          hU a (hperm2.subset ha) b (hperm2.subset hb) hab)
    have hseg : dropDuplicates (sort ((remove_redundant_entries_with sort d).segment_df)) []
        = (remove_redundant_entries_with sort d).segment_df := by
      rw [hl1]
      rw [dropDuplicates_eq_self _ [] hnd2 (by intro k _ hk; simp at hk)]
      exact heq
    show ({ remove_redundant_entries_with sort d with
      segment_df :=
        dropDuplicates (sort ((remove_redundant_entries_with sort d).segment_df)) [] }
        : DetailedCoverageData) = remove_redundant_entries_with sort d
    rw [hseg]

/-- Witness for C6 at concrete inputs: at the unstable by-time sort,
the twice-applied table is a permutation of the once-applied table; and
on a dataset whose once-result has no time ties (a single row), the
exact equality of the tie-free case holds. -/
theorem claim_C6_witness :
    List.Perm
      (remove_redundant_entries_with unstableSort
        (remove_redundant_entries_with unstableSort tieDataset)).segment_df
      (remove_redundant_entries_with unstableSort tieDataset).segment_df
    ∧ remove_redundant_entries_with unstableSort
        (remove_redundant_entries_with unstableSort sampleDataset)
      = remove_redundant_entries_with unstableSort sampleDataset :=
  ⟨(claim_C6 unstableSort unstableSort_isByTimeSort tieDataset).2.2.1,
   (claim_C6 unstableSort unstableSort_isByTimeSort sampleDataset).2.2.2.2 (by decide)⟩

/-- C10: each operation touches only its own table: `add_function_entry`
leaves `segment_df` unchanged, and `add_segment_entry` and
`remove_redundant_entries` leave `function_df` unchanged. -/
theorem claim_C10 (d : DetailedCoverageData) (benchmark fuzzer : String) (trial_id : Nat)
    (function function_hits file_name line column : JsonValue) (time : Nat)
    (already_seen : List (JsonValue × JsonValue)) :
    (d.add_function_entry benchmark fuzzer trial_id function function_hits time).segment_df
      = d.segment_df
    ∧ (d.add_segment_entry benchmark fuzzer trial_id file_name line column time
        already_seen).function_df = d.function_df
    ∧ d.remove_redundant_entries.function_df = d.function_df := by
  refine ⟨rfl, ?_, rfl⟩
  simp only [DetailedCoverageData.add_segment_entry]
  split <;> rfl

theorem get_previous_cycle_state_reads (env : WorkerEnv) (sf : StateFile)
    (h2 : sf.cycle ≠ 1) :
    (sf.get_previous_cycle_state env).2
      = [sf.get_bucket_cycle_state_file_path env (sf.cycle - 1)] := by
  simp only [StateFile.get_previous_cycle_state, if_neg h2]
  split <;> rfl

theorem get_previous_reads_eq (env : WorkerEnv) (sf : StateFile)
    (h1 : sf.prev_state = none) :
    (sf.get_previous env).2 = (sf.get_previous_cycle_state env).2 := by
  simp only [StateFile.get_previous, h1]
  rcases hgs : sf.get_previous_cycle_state env with ⟨res, reads⟩
  cases res <;> simp

theorem get_previous_cycle_state_fail (env : WorkerEnv) (sf : StateFile)
    (h2 : sf.cycle ≠ 1)
    (hc : (env.cat (sf.get_bucket_cycle_state_file_path env (sf.cycle - 1))).1 ≠ 0) :
    sf.get_previous_cycle_state env
      = (.ok [], [sf.get_bucket_cycle_state_file_path env (sf.cycle - 1)]) := by
  simp [StateFile.get_previous_cycle_state, h2, hc]

/-- C7: `StateFile.get_previous` returns the empty state with no
storage read when `cycle = 1`; otherwise its only storage read is the
blob addressed by `(name, cycle - 1)` and a failed read (nonzero
status) yields the empty state instead of an exception; and the result
is cached: a second call performs no storage read and returns the
cached value. -/
theorem claim_C7 (env : WorkerEnv) (sf : StateFile) :
    (sf.prev_state = none → sf.cycle = 1 →
      sf.get_previous env
        = (.ok ({ sf with prev_state := some [] }, ([] : CycleState)), ([] : List String)))
    ∧ (sf.prev_state = none → sf.cycle ≠ 1 →
      (sf.get_previous env).2 = [sf.get_bucket_cycle_state_file_path env (sf.cycle - 1)]
      ∧ ((env.cat (sf.get_bucket_cycle_state_file_path env (sf.cycle - 1))).1 ≠ 0 →
          sf.get_previous env
            = (.ok ({ sf with prev_state := some [] }, ([] : CycleState)),
               [sf.get_bucket_cycle_state_file_path env (sf.cycle - 1)])))
    ∧ (∀ s, sf.prev_state = some s → sf.get_previous env = (.ok (sf, s), ([] : List String)))
    ∧ (∀ sf2 s reads, sf.get_previous env = (.ok (sf2, s), reads) →
        sf2.get_previous env = (.ok (sf2, s), ([] : List String))) := by
  refine ⟨?_, ?_, ?_, ?_⟩
  · intro h1 h2
    simp [StateFile.get_previous, h1, StateFile.get_previous_cycle_state, h2]
  · intro h1 h2
    constructor
    · rw [get_previous_reads_eq env sf h1]
      exact get_previous_cycle_state_reads env sf h2
    · intro hc
      simp [StateFile.get_previous, h1, get_previous_cycle_state_fail env sf h2 hc]
  · intro s hs
    simp [StateFile.get_previous, hs]
  · intro sf2 s reads h
    rcases hps : sf.prev_state with _ | s2
    · rw [StateFile.get_previous, hps] at h
      rcases hgs : sf.get_previous_cycle_state env with ⟨res, rds⟩
      rw [hgs] at h
      cases res with
      | error e => simp at h
      | ok s3 =>
        simp only [Prod.mk.injEq, Except.ok.injEq] at h
        obtain ⟨⟨h3, h4⟩, h5⟩ := h
        subst h3
        subst h4
        simp [StateFile.get_previous]
    · rw [StateFile.get_previous, hps] at h
      simp only [Prod.mk.injEq, Except.ok.injEq] at h
      obtain ⟨⟨h3, h4⟩, h5⟩ := h
      subst h3
      subst h4
      simp [StateFile.get_previous, hps]

/-- Witness for C7 at concrete inputs: at cycle 1 the previous state is
empty with no storage read; at cycle 2, with a `cat` that always fails,
the single read targets the cycle-1 state file and the result is the
empty state. -/
theorem claim_C7_witness :
    (StateFile.mk_init "measured-files" "dir" 1).get_previous sampleEnv
      = (.ok (⟨"measured-files", "dir", 1, some []⟩, ([] : CycleState)), ([] : List String))
    ∧ (StateFile.mk_init "measured-files" "dir" 2).get_previous sampleEnv
      = (.ok (⟨"measured-files", "dir", 2, some []⟩, ([] : CycleState)),
         ["dir/measured-files-1.json"]) :=
  ⟨(claim_C7 sampleEnv (StateFile.mk_init "measured-files" "dir" 1)).1 rfl rfl,
   ((claim_C7 sampleEnv (StateFile.mk_init "measured-files" "dir" 2)).2.1 rfl
      (by decide)).2 (by decide)⟩

/-- C8: `StateFile.set_current` performs exactly a write of the full
JSON serialization to the scratch file, a flush, and then a copy to the
durable location for `(name, cycle)`; after the run the durable
location holds the full serialization, and after any prefix of the run
the durable location holds either its initial content or the full
serialization — never a partial payload. -/
theorem claim_C8 (env : WorkerEnv) (sf : StateFile) (state : CycleState) (st0 : FsState)
    (hbuf : st0.buffered = "") (hdisk : st0.onDisk = "") :
    sf.set_current env state
      = [.writeTemp (env.jsonDumps state), .flushTemp,
         .cpTempToDurable (sf.get_bucket_cycle_state_file_path env sf.cycle)]
    ∧ (runOps st0 (sf.set_current env state)).durable
        (sf.get_bucket_cycle_state_file_path env sf.cycle) = some (env.jsonDumps state)
    ∧ ∀ n, (runOps st0 ((sf.set_current env state).take n)).durable
          (sf.get_bucket_cycle_state_file_path env sf.cycle)
          = st0.durable (sf.get_bucket_cycle_state_file_path env sf.cycle)
        ∨ (runOps st0 ((sf.set_current env state).take n)).durable
            (sf.get_bucket_cycle_state_file_path env sf.cycle)
          = some (env.jsonDumps state) := by
  have hfull : (runOps st0 (sf.set_current env state)).durable
      (sf.get_bucket_cycle_state_file_path env sf.cycle) = some (env.jsonDumps state) := by
    simp [StateFile.set_current, runOps, stepOp, hbuf, hdisk]
  refine ⟨rfl, hfull, ?_⟩
  intro n
  match n with
  | 0 => exact Or.inl rfl
  | 1 => exact Or.inl rfl
  | 2 => exact Or.inl rfl
  | (k + 3) =>
    right
    have htake : (sf.set_current env state).take (k + 3) = sf.set_current env state := by
      simp [StateFile.set_current]
    rw [htake]
    exact hfull

/-- Witness for C8 at concrete inputs: storing the empty state at cycle
3 leaves `"[]"` at the durable path. -/
theorem claim_C8_witness :
    (runOps sampleFsState
        ((StateFile.mk_init "measured-files" "dir" 3).set_current sampleEnv [])).durable
      "dir/measured-files-3.json" = some "[]" :=
  (claim_C8 sampleEnv (StateFile.mk_init "measured-files" "dir" 3) [] sampleFsState
    rfl rfl).2.1

theorem add_segment_entry_function_df (d : DetailedCoverageData) (benchmark fuzzer : String)
    (trial_id : Nat) (file_name line column : JsonValue) (time : Nat)
    (recoreded_segments : List (JsonValue × JsonValue)) :
    (d.add_segment_entry benchmark fuzzer trial_id file_name line column time
        recoreded_segments).function_df = d.function_df := by
  simp only [DetailedCoverageData.add_segment_entry]
  split <;> rfl

theorem catchClause_fst (x : Except (PyError × DetailedCoverageData) DetailedCoverageData) :
    (catchClause x).1 = resultData x := by
  rcases x with ⟨e, d⟩ | d
  · cases e <;> rfl
  · rfl

theorem catchClause_snd (x : Except (PyError × DetailedCoverageData) DetailedCoverageData) :
    (catchClause x).2 = none ∨ (catchClause x).2 = some PyError.typeError := by
  rcases x with ⟨e, d⟩ | d
  · cases e
    exacts [Or.inl rfl, Or.inl rfl, Or.inl rfl, Or.inr rfl]
  · exact Or.inl rfl

theorem functionsLoop_frame (benchmark fuzzer : String) (trial_id time : Nat)
    (fns : List JsonValue) :
    ∀ d, (resultData (functionsLoop benchmark fuzzer trial_id time fns d)).segment_df
        = d.segment_df
      ∧ ∃ new, (resultData (functionsLoop benchmark fuzzer trial_id time fns d)).function_df
          = d.function_df ++ new := by
  induction fns with
  | nil => exact fun d => ⟨rfl, [], by simp [functionsLoop, resultData]⟩
  | cons fn rest ih =>
    intro d
    rw [functionsLoop]
    split
    · exact ⟨rfl, [], by simp [resultData]⟩
    next name heqn =>
      split
      · exact ⟨rfl, [], by simp [resultData]⟩
      next count heqc =>
        obtain ⟨hseg, new, hfun⟩ :=
          ih (d.add_function_entry benchmark fuzzer trial_id name count time)
        refine ⟨hseg, ⟨benchmark, fuzzer, trial_id, time, name, count⟩ :: new, ?_⟩
        rw [hfun]
        simp [DetailedCoverageData.add_function_entry]

theorem segmentsLoop_spec (benchmark fuzzer : String) (trial_id time : Nat)
    (recorded : List (JsonValue × JsonValue)) (file : JsonValue) (segs : List JsonValue) :
    ∀ d, (resultData (segmentsLoop benchmark fuzzer trial_id time recorded file segs d)).function_df
        = d.function_df
      ∧ ∃ new,
          (resultData (segmentsLoop benchmark fuzzer trial_id time recorded file segs d)).segment_df
            = d.segment_df ++ new
          ∧ ∀ r ∈ new, (r.line, r.column) ∉ recorded := by
  induction segs with
  | nil => exact fun d => ⟨rfl, [], by simp [segmentsLoop, resultData], by simp⟩
  | cons seg rest ih =>
    intro d
    rw [segmentsLoop]
    split
    · exact ⟨rfl, [], by simp [resultData], by simp⟩
    next hit heqh =>
      split
      · split
        · exact ⟨rfl, [], by simp [resultData], by simp⟩
        next fname heqf =>
          split
          · exact ⟨rfl, [], by simp [resultData], by simp⟩
          next line heql =>
            split
            · exact ⟨rfl, [], by simp [resultData], by simp⟩
            next column heqc =>
              by_cases hmem : (line, column) ∈ recorded
              · have hd : d.add_segment_entry benchmark fuzzer trial_id fname line column time
                    recorded = d := by
                  simp [DetailedCoverageData.add_segment_entry, hmem]
                rw [hd]
                exact ih d
              · obtain ⟨hfun, new, hseg, hpairs⟩ :=
                  ih (d.add_segment_entry benchmark fuzzer trial_id fname line column time
                    recorded)
                have hd : (d.add_segment_entry benchmark fuzzer trial_id fname line column time
                    recorded).segment_df
                    = d.segment_df
                      ++ [⟨benchmark, fuzzer, trial_id, time, fname, line, column⟩] := by
                  simp [DetailedCoverageData.add_segment_entry, hmem]
                refine ⟨hfun.trans (add_segment_entry_function_df _ _ _ _ _ _ _ _ _), ?_⟩
                refine ⟨⟨benchmark, fuzzer, trial_id, time, fname, line, column⟩ :: new, ?_, ?_⟩
                · rw [hseg, hd]
                  simp
                · intro r hr
                  rcases List.mem_cons.mp hr with rfl | hr2
                  · exact hmem
                  · exact hpairs r hr2
      · exact ih d

theorem filesLoop_spec (benchmark fuzzer : String) (trial_id time : Nat)
    (recorded : List (JsonValue × JsonValue)) (files : List JsonValue) :
    ∀ d, (resultData (filesLoop benchmark fuzzer trial_id time recorded files d)).function_df
        = d.function_df
      ∧ ∃ new,
          (resultData (filesLoop benchmark fuzzer trial_id time recorded files d)).segment_df
            = d.segment_df ++ new
          ∧ ∀ r ∈ new, (r.line, r.column) ∉ recorded := by
  induction files with
  | nil => exact fun d => ⟨rfl, [], by simp [filesLoop, resultData], by simp⟩
  | cons file rest ih =>
    intro d
    rw [filesLoop]
    split
    · exact ⟨rfl, [], by simp [resultData], by simp⟩
    next segsVal heq1 =>
      split
      · exact ⟨rfl, [], by simp [resultData], by simp⟩
      next segments heq2 =>
        have hs := segmentsLoop_spec benchmark fuzzer trial_id time recorded file segments d
        split
        next ed heq3 =>
          rw [heq3] at hs
          obtain ⟨eE, dE⟩ := ed
          exact hs
        next d2 heq3 =>
          rw [heq3] at hs
          simp only [resultData] at hs
          obtain ⟨hfun1, new1, hseg1, hp1⟩ := hs
          obtain ⟨hfun2, new2, hseg2, hp2⟩ := ih d2
          refine ⟨hfun2.trans hfun1, new1 ++ new2, ?_, ?_⟩
          · rw [hseg2, hseg1]
            simp
          · intro r hr
            rcases List.mem_append.mp hr with h | h
            · exact hp1 r h
            · exact hp2 r h

theorem runExtract_spec (s : Option JsonValue) (benchmark fuzzer : String)
    (trial_id time : Nat) (recorded : List (JsonValue × JsonValue))
    (d : DetailedCoverageData) :
    (∃ newF, (resultData (runExtract s benchmark fuzzer trial_id time recorded d)).function_df
        = d.function_df ++ newF)
    ∧ (∃ newS, (resultData (runExtract s benchmark fuzzer trial_id time recorded d)).segment_df
          = d.segment_df ++ newS
        ∧ ∀ r ∈ newS, (r.line, r.column) ∉ recorded) := by
  unfold runExtract
  split
  · exact ⟨⟨[], by simp [resultData]⟩, [], by simp [resultData], by simp⟩
  next ci heq0 =>
    split
    · exact ⟨⟨[], by simp [resultData]⟩, [], by simp [resultData], by simp⟩
    next fns heq1 =>
      have hf := functionsLoop_frame benchmark fuzzer trial_id time fns d
      split
      next ed heq2 =>
        rw [heq2] at hf
        obtain ⟨eE, dE⟩ := ed
        obtain ⟨hseg1, newF, hfun1⟩ := hf
        exact ⟨⟨newF, hfun1⟩, [], by simp [hseg1], by simp⟩
      next d1 heq2 =>
        rw [heq2] at hf
        simp only [resultData] at hf
        obtain ⟨hseg1, newF, hfun1⟩ := hf
        split
        next e heq3 =>
          exact ⟨⟨newF, hfun1⟩, [], by simp [resultData, hseg1], by simp⟩
        next files heq3 =>
          obtain ⟨hfun2, newS, hseg2, hp⟩ :=
            filesLoop_spec benchmark fuzzer trial_id time recorded files d1
          exact ⟨⟨newF, hfun2.trans hfun1⟩, newS, by rw [hseg2, hseg1], hp⟩

/-- C1 counterexample: on a summary whose two files both contain a hit
segment at `(line 5, column 1)`, one call on a fresh dataset appends two
segment rows with the same `(line, column)` pair — pairs appended
earlier in the same call are not suppressed, because the
`recorded_segments` list is computed once at entry and never extended
during the call. -/
theorem claim_C1_counterexample :
    ((extract_segments_and_functions_from_summary_json (some dupSegSummary) "b1" "f1" 2 900
          DetailedCoverageData.empty).1.segment_df.map fun r => (r.line, r.column))
      = [(.num 5, .num 1), (.num 5, .num 1)]
    ∧ ¬ ((extract_segments_and_functions_from_summary_json (some dupSegSummary) "b1" "f1" 2 900
          DetailedCoverageData.empty).1.segment_df.map fun r => (r.line, r.column)).Nodup := by
  constructor
  · rfl
  · decide

/-- C1 (amended): a segment occurrence is suppressed exactly against
the previously-recorded `(line, column)` set computed from the dataset
at call entry; pairs appended earlier during the same call are not
consulted, so one call can append duplicate pairs.  Every row appended
by the call has a `(line, column)` pair outside the entry-time set. -/
theorem claim_C1 (s : Option JsonValue) (benchmark fuzzer : String) (trial_id time : Nat)
    (d : DetailedCoverageData) :
    ∃ new,
      (extract_segments_and_functions_from_summary_json s benchmark fuzzer trial_id time
          d).1.segment_df
        = d.segment_df ++ new
      ∧ ∀ r ∈ new,
          (r.line, r.column) ∉ d.segment_df.map fun q => (q.line, q.column) := by
  have h := (runExtract_spec s benchmark fuzzer trial_id time
    (d.segment_df.map fun q => (q.line, q.column)) d).2
  obtain ⟨newS, hns, hp⟩ := h
  refine ⟨newS, ?_, hp⟩
  show (catchClause (runExtract s benchmark fuzzer trial_id time
    (d.segment_df.map fun q => (q.line, q.column)) d)).1.segment_df = _
  rw [catchClause_fst]
  exact hns

/-- C2 counterexample: on the malformed document `{"data": 5}` the
subscript `coverage_info['data'][0]` raises `TypeError`, which the
`except (ValueError, KeyError, IndexError)` clause does not catch, so
the exception escapes the function. -/
theorem claim_C2_counterexample :
    (extract_segments_and_functions_from_summary_json (some badTypeSummary) "b1" "f1" 2 900
        DetailedCoverageData.empty).2 = some PyError.typeError := by
  rfl

/-- C2 (amended): a malformed input that fails with `ValueError`,
`KeyError` or `IndexError` is caught (logged) and the function returns
the dataset containing whatever entries had been accumulated before the
fault; the only exception that can escape the function is `TypeError`,
which wrong-typed documents can raise.  In either outcome the dataset
extends the input dataset by the accumulated entries. -/
theorem claim_C2 (s : Option JsonValue) (benchmark fuzzer : String) (trial_id time : Nat)
    (d : DetailedCoverageData) :
    ((extract_segments_and_functions_from_summary_json s benchmark fuzzer trial_id time d).2
        = none
      ∨ (extract_segments_and_functions_from_summary_json s benchmark fuzzer trial_id time d).2
        = some PyError.typeError)
    ∧ (∃ newF,
        (extract_segments_and_functions_from_summary_json s benchmark fuzzer trial_id time
            d).1.function_df
          = d.function_df ++ newF)
    ∧ (∃ newS,
        (extract_segments_and_functions_from_summary_json s benchmark fuzzer trial_id time
            d).1.segment_df
          = d.segment_df ++ newS) := by
  refine ⟨?_, ?_, ?_⟩
  · exact catchClause_snd _
  · obtain ⟨newF, hf⟩ := (runExtract_spec s benchmark fuzzer trial_id time
      (d.segment_df.map fun q => (q.line, q.column)) d).1
    refine ⟨newF, ?_⟩
    show (catchClause (runExtract s benchmark fuzzer trial_id time
      (d.segment_df.map fun q => (q.line, q.column)) d)).1.function_df = _
    rw [catchClause_fst]
    exact hf
  · obtain ⟨newS, hs2, _⟩ := (runExtract_spec s benchmark fuzzer trial_id time
      (d.segment_df.map fun q => (q.line, q.column)) d).2
    refine ⟨newS, ?_⟩
    show (catchClause (runExtract s benchmark fuzzer trial_id time
      (d.segment_df.map fun q => (q.line, q.column)) d)).1.segment_df = _
    rw [catchClause_fst]
    exact hs2

theorem validFunction_fields (fn : JsonValue) (h : validFunction fn = true) :
    subscriptStr fn "name" = .ok (fnName fn)
    ∧ subscriptStr fn "count" = .ok (fnCount fn) := by
  rw [validFunction, Bool.and_eq_true] at h
  obtain ⟨h1, h2⟩ := h
  constructor
  · cases hn : subscriptStr fn "name" with
    | error e => rw [hn] at h1; simp [isOkB] at h1
    | ok v => simp [fnName, getOkD, hn]
  · cases hc : subscriptStr fn "count" with
    | error e => rw [hc] at h2; simp [isOkB] at h2
    | ok v => simp [fnCount, getOkD, hc]

theorem validSegment_fields (seg : JsonValue) (h : validSegment seg = true) :
    subscriptIdx seg 0 = .ok (segLine seg)
    ∧ subscriptIdx seg 1 = .ok (segCol seg)
    ∧ subscriptIdx seg 2 = .ok (segHit seg) := by
  unfold validSegment at h
  split at h
  · refine ⟨?_, ?_, ?_⟩ <;> simp [subscriptIdx, segLine, segCol, segHit, getOkD]
  · exact absurd h (by simp)

theorem validSummary_fields (s : Option JsonValue) (h : validSummary s = true) :
    ∃ v dv d0, s = some v
      ∧ subscriptStr v "data" = .ok dv
      ∧ subscriptIdx dv 0 = .ok d0
      ∧ subscriptStr d0 "functions" = .ok (.arr (summaryFunctionsList s))
      ∧ subscriptStr d0 "files" = .ok (.arr (summaryFilesList s))
      ∧ (summaryFunctionsList s).all validFunction = true
      ∧ (summaryFilesList s).all validFile = true := by
  cases s with
  | none => simp [validSummary] at h
  | some v =>
    simp only [validSummary] at h
    split at h
    · simp at h
    next dv hd =>
      split at h
      · simp at h
      next d0 h0 =>
        rw [Bool.and_eq_true] at h
        obtain ⟨hfns, hfls⟩ := h
        refine ⟨v, dv, d0, rfl, hd, h0, ?_⟩
        split at hfns
        next fns hf =>
          split at hfls
          next files hl =>
            have hfuneq : summaryFunctionsList (some v) = fns := by
              simp [summaryFunctionsList, hd, h0, hf]
            have hfileq : summaryFilesList (some v) = files := by
              simp [summaryFilesList, hd, h0, hl]
            rw [hfuneq, hfileq]
            exact ⟨hf ▸ rfl, hl ▸ rfl, hfns, hfls⟩
          next hno => simp at hfls
        next hno => simp at hfns

theorem validFile_fields (f : JsonValue) (h : validFile f = true) :
    subscriptStr f "filename" = .ok (fileNameOf f)
    ∧ subscriptStr f "segments" = .ok (.arr (fileSegmentsList f))
    ∧ (fileSegmentsList f).all validSegment = true := by
  rw [validFile, Bool.and_eq_true] at h
  obtain ⟨h1, h2⟩ := h
  refine ⟨?_, ?_, ?_⟩
  · cases hn : subscriptStr f "filename" with
    | error e => rw [hn] at h1; simp [isOkB] at h1
    | ok v => simp [fileNameOf, getOkD, hn]
  · split at h2
    next segs hs => simp [fileSegmentsList, hs]
    next hno => simp at h2
  · split at h2
    next segs hs =>
      rw [show fileSegmentsList f = segs by simp [fileSegmentsList, hs]]
      exact h2
    next hno => simp at h2

theorem functionsLoop_valid (benchmark fuzzer : String) (trial_id time : Nat)
    (fns : List JsonValue) :
    ∀ d, fns.all validFunction = true →
      functionsLoop benchmark fuzzer trial_id time fns d
        = .ok { d with function_df :=
            d.function_df ++ fns.map (mkFunctionRow benchmark fuzzer trial_id time) } := by
  induction fns with
  | nil => intro d _; simp [functionsLoop]
  | cons fn rest ih =>
    intro d hall
    rw [List.all_cons, Bool.and_eq_true] at hall
    have h1 := validFunction_fields fn hall.1
    simp only [functionsLoop, h1.1, h1.2]
    rw [ih _ hall.2]
    congr 1
    simp [DetailedCoverageData.add_function_entry, mkFunctionRow]

theorem segmentsLoop_valid (benchmark fuzzer : String) (trial_id time : Nat)
    (file : JsonValue) (hfile : validFile file = true) (segs : List JsonValue) :
    ∀ d, segs.all validSegment = true →
      segmentsLoop benchmark fuzzer trial_id time [] file segs d
        = .ok { d with segment_df := d.segment_df
            ++ ((segs.filter segHitNonzero).map
                 (mkSegmentRow benchmark fuzzer trial_id time file)) } := by
  induction segs with
  | nil => intro d _; simp [segmentsLoop]
  | cons seg rest ih =>
    intro d hall
    rw [List.all_cons, Bool.and_eq_true] at hall
    have hseg := validSegment_fields seg hall.1
    simp only [segmentsLoop, hseg.2.2]
    cases hnz : pyNeZero (segHit seg) with
    | true =>
      rw [if_pos rfl]
      simp only [(validFile_fields file hfile).1, hseg.1, hseg.2.1]
      have hadd : d.add_segment_entry benchmark fuzzer trial_id (fileNameOf file)
          (segLine seg) (segCol seg) time []
          = { d with segment_df := d.segment_df
              ++ [mkSegmentRow benchmark fuzzer trial_id time file seg] } := by
        simp [DetailedCoverageData.add_segment_entry, mkSegmentRow]
      rw [hadd, ih _ hall.2]
      congr 1
      simp [List.filter_cons, segHitNonzero, hnz, List.append_assoc]
    | false =>
      rw [if_neg Bool.false_ne_true]
      rw [ih _ hall.2]
      congr 1
      simp [List.filter_cons, segHitNonzero, hnz]

theorem filesLoop_valid (benchmark fuzzer : String) (trial_id time : Nat)
    (files : List JsonValue) :
    ∀ d, files.all validFile = true →
      filesLoop benchmark fuzzer trial_id time [] files d
        = .ok { d with segment_df := d.segment_df
            ++ (files.map fun fl =>
                 ((fileSegmentsList fl).filter segHitNonzero).map
                   (mkSegmentRow benchmark fuzzer trial_id time fl)).flatten } := by
  induction files with
  | nil => intro d _; simp [filesLoop]
  | cons file rest ih =>
    intro d hall
    rw [List.all_cons, Bool.and_eq_true] at hall
    have hf := validFile_fields file hall.1
    simp only [filesLoop, hf.2.1, pyIter]
    have hsl := segmentsLoop_valid benchmark fuzzer trial_id time file hall.1
      (fileSegmentsList file) d hf.2.2
    simp only [hsl]
    rw [ih _ hall.2]
    congr 1
    simp [List.append_assoc]

theorem summaryField_functions_eq (s : Option JsonValue) (v dv d0 : JsonValue)
    (hdata : subscriptStr v "data" = .ok dv)
    (hd0 : subscriptIdx dv 0 = .ok d0)
    (hfns : subscriptStr d0 "functions" = .ok (.arr (summaryFunctionsList s))) :
    summaryField v "functions" = .ok (summaryFunctionsList s) := by
  simp [summaryField, hdata, hd0, hfns, pyIter, Bind.bind, Except.bind]

theorem summaryField_files_eq (s : Option JsonValue) (v dv d0 : JsonValue)
    (hdata : subscriptStr v "data" = .ok dv)
    (hd0 : subscriptIdx dv 0 = .ok d0)
    (hfiles : subscriptStr d0 "files" = .ok (.arr (summaryFilesList s))) :
    summaryField v "files" = .ok (summaryFilesList s) := by
  simp [summaryField, hdata, hd0, hfiles, pyIter, Bind.bind, Except.bind]

theorem runExtract_valid (s : Option JsonValue) (benchmark fuzzer : String)
    (trial_id time : Nat) (d : DetailedCoverageData) (h : validSummary s = true) :
    runExtract s benchmark fuzzer trial_id time [] d
      = .ok { segment_df :=
                d.segment_df ++ segmentRowsOfSummary benchmark fuzzer trial_id time s,
              function_df :=
                d.function_df ++ List.map (mkFunctionRow benchmark fuzzer trial_id time)
                  (summaryFunctionsList s) } := by
  obtain ⟨v, dv, d0, hsv, hdata, hd0, hfns, hfiles, hvf, hvfl⟩ := validSummary_fields s h
  have hsf := summaryField_functions_eq s v dv d0 hdata hd0 hfns
  have hsl := summaryField_files_eq s v dv d0 hdata hd0 hfiles
  subst hsv
  have hfl := functionsLoop_valid benchmark fuzzer trial_id time
    (summaryFunctionsList (some v)) d hvf
  have hfll := filesLoop_valid benchmark fuzzer trial_id time (summaryFilesList (some v))
    ⟨d.segment_df,
     d.function_df ++ List.map (mkFunctionRow benchmark fuzzer trial_id time)
       (summaryFunctionsList (some v))⟩ hvfl
  simp only [runExtract, getCoverageInformation, hsf, hsl, hfl, hfll]
  congr 1

theorem segmentRowsOfSummary_length (benchmark fuzzer : String) (trial_id time : Nat)
    (s : Option JsonValue) :
    (segmentRowsOfSummary benchmark fuzzer trial_id time s).length
      = nonzeroSegmentCount s := by
  simp [segmentRowsOfSummary, nonzeroSegmentCount, List.length_flatten, List.map_map,
    Function.comp_def, List.length_map]

/-- C3: parsing a valid coverage summary into a fresh dataset (empty
previously-recorded set) succeeds, produces exactly one segment row per
segment tuple with nonzero hit count (in order), and hence the number
of segment rows equals the number of nonzero-hit segment tuples across
all files; rows for zero-hit segments never appear (the produced rows
are exactly those of the `segHitNonzero` filter). -/
theorem claim_C3 (s : Option JsonValue) (benchmark fuzzer : String) (trial_id time : Nat)
    (h : validSummary s = true) :
    (extract_segments_and_functions_from_summary_json s benchmark fuzzer trial_id time
        DetailedCoverageData.empty).2 = none
    ∧ (extract_segments_and_functions_from_summary_json s benchmark fuzzer trial_id time
        DetailedCoverageData.empty).1.segment_df
      = segmentRowsOfSummary benchmark fuzzer trial_id time s
    ∧ (extract_segments_and_functions_from_summary_json s benchmark fuzzer trial_id time
        DetailedCoverageData.empty).1.segment_df.length = nonzeroSegmentCount s := by
  have hrun := runExtract_valid s benchmark fuzzer trial_id time DetailedCoverageData.empty h
  have hx : extract_segments_and_functions_from_summary_json s benchmark fuzzer trial_id time
      DetailedCoverageData.empty
      = catchClause (runExtract s benchmark fuzzer trial_id time []
          DetailedCoverageData.empty) := rfl
  refine ⟨?_, ?_, ?_⟩
  · rw [hx, hrun]; rfl
  · rw [hx, hrun]
    show DetailedCoverageData.segment_df _ = _
    simp [DetailedCoverageData.empty, catchClause]
  · rw [hx, hrun]
    show (DetailedCoverageData.segment_df _).length = _
    simp [DetailedCoverageData.empty, catchClause,
      segmentRowsOfSummary_length benchmark fuzzer trial_id time s]

/-- Witness for C3 at the spec's concrete scenario (three functions and
one file with segments `[[5,1,1],[5,2,0],[6,1,3]]`): the summary is
valid and exactly 2 segment rows are produced (the zero-hit `(5,2)`
segment yields none). -/
theorem claim_C3_witness :
    validSummary (some specScenarioSummary) = true
    ∧ (extract_segments_and_functions_from_summary_json (some specScenarioSummary) "b1" "f1" 2
        900 DetailedCoverageData.empty).1.segment_df.length = 2 :=
  ⟨by decide,
   by
    have h := (claim_C3 (some specScenarioSummary) "b1" "f1" 2 900 (by decide)).2.2
    exact h.trans (by decide)⟩

theorem segmentsLoop_valid_ok (benchmark fuzzer : String) (trial_id time : Nat)
    (recorded : List (JsonValue × JsonValue)) (file : JsonValue)
    (hfile : validFile file = true) (segs : List JsonValue) :
    ∀ d, segs.all validSegment = true →
      ∃ d2, segmentsLoop benchmark fuzzer trial_id time recorded file segs d = .ok d2 := by
  induction segs with
  | nil => exact fun d _ => ⟨d, rfl⟩
  | cons seg rest ih =>
    intro d hall
    rw [List.all_cons, Bool.and_eq_true] at hall
    have hseg := validSegment_fields seg hall.1
    simp only [segmentsLoop, hseg.2.2]
    cases hnz : pyNeZero (segHit seg) with
    | true =>
      rw [if_pos rfl]
      simp only [(validFile_fields file hfile).1, hseg.1, hseg.2.1]
      exact ih _ hall.2
    | false =>
      rw [if_neg Bool.false_ne_true]
      exact ih d hall.2

theorem filesLoop_valid_ok (benchmark fuzzer : String) (trial_id time : Nat)
    (recorded : List (JsonValue × JsonValue)) (files : List JsonValue) :
    ∀ d, files.all validFile = true →
      ∃ d2, filesLoop benchmark fuzzer trial_id time recorded files d = .ok d2 := by
  induction files with
  | nil => exact fun d _ => ⟨d, rfl⟩
  | cons file rest ih =>
    intro d hall
    rw [List.all_cons, Bool.and_eq_true] at hall
    have hf := validFile_fields file hall.1
    simp only [filesLoop, hf.2.1, pyIter]
    obtain ⟨d2, hd2⟩ := segmentsLoop_valid_ok benchmark fuzzer trial_id time recorded file
      hall.1 (fileSegmentsList file) d hf.2.2
    simp only [hd2]
    exact ih d2 hall.2

theorem runExtract_valid_functions (s : Option JsonValue) (benchmark fuzzer : String)
    (trial_id time : Nat) (recorded : List (JsonValue × JsonValue))
    (d : DetailedCoverageData) (h : validSummary s = true) :
    ∃ d2, runExtract s benchmark fuzzer trial_id time recorded d = .ok d2
      ∧ d2.function_df = d.function_df
          ++ List.map (mkFunctionRow benchmark fuzzer trial_id time)
            (summaryFunctionsList s) := by
  obtain ⟨v, dv, d0, hsv, hdata, hd0, hfns, hfiles, hvf, hvfl⟩ := validSummary_fields s h
  have hsf := summaryField_functions_eq s v dv d0 hdata hd0 hfns
  have hsl := summaryField_files_eq s v dv d0 hdata hd0 hfiles
  subst hsv
  have hfl := functionsLoop_valid benchmark fuzzer trial_id time
    (summaryFunctionsList (some v)) d hvf
  obtain ⟨d2, hd2⟩ := filesLoop_valid_ok benchmark fuzzer trial_id time recorded
    (summaryFilesList (some v))
    ⟨d.segment_df,
     d.function_df ++ List.map (mkFunctionRow benchmark fuzzer trial_id time)
       (summaryFunctionsList (some v))⟩ hvfl
  refine ⟨d2, ?_, ?_⟩
  · simp only [runExtract, getCoverageInformation, hsf, hsl, hfl, hd2]
  · have hframe := (filesLoop_spec benchmark fuzzer trial_id time recorded
      (summaryFilesList (some v))
      ⟨d.segment_df,
       d.function_df ++ List.map (mkFunctionRow benchmark fuzzer trial_id time)
         (summaryFunctionsList (some v))⟩).1
    rw [hd2] at hframe
    simpa [resultData] using hframe

/-- C9: `add_function_entry` unconditionally appends one row per call;
consequently, parsing a valid summary appends exactly one function row
per element of the summary's `functions` list (zero-hit functions
included), and every appended row's name appears in that list. -/
theorem claim_C9 (s : Option JsonValue) (benchmark fuzzer : String) (trial_id time : Nat)
    (d : DetailedCoverageData) (function function_hits : JsonValue)
    (h : validSummary s = true) :
    (d.add_function_entry benchmark fuzzer trial_id function function_hits time).function_df
      = d.function_df ++ [⟨benchmark, fuzzer, trial_id, time, function, function_hits⟩]
    ∧ (extract_segments_and_functions_from_summary_json s benchmark fuzzer trial_id time
        d).1.function_df
      = d.function_df
        ++ List.map (mkFunctionRow benchmark fuzzer trial_id time) (summaryFunctionsList s)
    ∧ (extract_segments_and_functions_from_summary_json s benchmark fuzzer trial_id time
        d).1.function_df.length
      = d.function_df.length + (summaryFunctionsList s).length
    ∧ ∀ r ∈ ((extract_segments_and_functions_from_summary_json s benchmark fuzzer trial_id
        time d).1.function_df.drop d.function_df.length),
        r.function ∈ (summaryFunctionsList s).map fnName := by
  obtain ⟨d2, hd2, hfun⟩ := runExtract_valid_functions s benchmark fuzzer trial_id time
    (d.segment_df.map fun q => (q.line, q.column)) d h
  have hx : (extract_segments_and_functions_from_summary_json s benchmark fuzzer trial_id
      time d).1.function_df
      = d.function_df
        ++ List.map (mkFunctionRow benchmark fuzzer trial_id time)
          (summaryFunctionsList s) := by
    show (catchClause (runExtract s benchmark fuzzer trial_id time
      (d.segment_df.map fun q => (q.line, q.column)) d)).1.function_df = _
    rw [catchClause_fst, hd2]
    exact hfun
  refine ⟨rfl, hx, ?_, ?_⟩
  · rw [hx]; simp
  · rw [hx, List.drop_left]
    intro r hr
    obtain ⟨fn, hfn, rfl⟩ := List.mem_map.mp hr
    exact List.mem_map.mpr ⟨fn, hfn, rfl⟩

/-- Witness for C9 at the spec's concrete scenario: the summary is
valid and exactly 3 function rows are produced (including the
hit-count-0 function `bar`). -/
theorem claim_C9_witness :
    validSummary (some specScenarioSummary) = true
    ∧ (extract_segments_and_functions_from_summary_json (some specScenarioSummary) "b1" "f1" 2
        900 DetailedCoverageData.empty).1.function_df.length = 3 :=
  ⟨by decide,
   by
    have h := (claim_C9 (some specScenarioSummary) "b1" "f1" 2 900 DetailedCoverageData.empty
      (.str "x") (.num 0) (by decide)).2.2.1
    exact h.trans (by decide)⟩
